import Mathlib

/-!
Shallow embedding of the watch-room server core
(`WatchRoomServer` in `watch-room-server.ts`, plus the process-level
exception handling in `index.ts`).

JavaScript `Map<string, V>` objects are modelled as association lists with
insertion-order semantics (`Map.set` replaces in place, `Map.delete` removes
the entry, iteration follows insertion order).  Timestamps (`Date.now()`)
are natural numbers supplied as explicit inputs; the random id generator is
modelled as an oracle input to the create handler.  Outbound socket traffic
(`socket.to(room).emit`, `io.to(room).emit`, `socket.emit`) is modelled as a
list of emission events returned by each handler; request/response callbacks
are modelled as explicit reply values.
-/

namespace WatchRoom

/-- Association list keyed by strings, modelling a JS `Map<string, V>`. -/
def AssocMap (α : Type) : Type := List (String × α)

instance {α : Type} [DecidableEq α] : DecidableEq (AssocMap α) :=
  inferInstanceAs (DecidableEq (List (String × α)))

instance {α : Type} : Membership (String × α) (AssocMap α) :=
  inferInstanceAs (Membership (String × α) (List (String × α)))

namespace AssocMap

/-- JS `Map.get`: first entry with the given key. -/
def get {α : Type} (m : AssocMap α) (k : String) : Option α :=
  match m with
  | [] => none
  | (k', v) :: rest => if k' = k then some v else get rest k

/-- JS `Map.set`: replace in place if the key is present, else append. -/
def set {α : Type} (m : AssocMap α) (k : String) (v : α) : AssocMap α :=
  match m with
  | [] => [(k, v)]
  | (k', v') :: rest => if k' = k then (k', v) :: rest else (k', v') :: set rest k v

/-- JS `Map.delete`: remove the entry with the given key. -/
def del {α : Type} (m : AssocMap α) (k : String) : AssocMap α :=
  match m with
  | [] => []
  | (k', v') :: rest => if k' = k then rest else (k', v') :: del rest k

/-- JS `Map.size`. -/
def size {α : Type} (m : AssocMap α) : Nat := List.length m

/-- JS `Array.from(map.values())`. -/
def values {α : Type} (m : AssocMap α) : List α := List.map Prod.snd m

/-- The list of keys, in insertion order. -/
def keys {α : Type} (m : AssocMap α) : List String := List.map Prod.fst m

/-- The keys are pairwise distinct, as they are for a real JS `Map`. -/
def keysNodup {α : Type} (m : AssocMap α) : Prop := (keys m).Nodup

end AssocMap

open AssocMap

/-- Opaque playback-state payload (`PlayerState` blob); never inspected by the server. -/
abbrev PlayState := String

/-- The `Member` record from `types.ts`, as constructed by the handlers. -/
structure Member where
  id : String
  name : String
  isOwner : Bool
  lastHeartbeat : Nat
  deriving DecidableEq, Repr

/-- The `Room` record from `types.ts`, as constructed by the `room:create` handler. -/
structure Room where
  id : String
  name : String
  description : Option String
  password : Option String
  isPublic : Bool
  ownerId : String
  ownerName : String
  ownerToken : String
  memberCount : Nat
  currentState : Option PlayState
  createdAt : Nat
  lastOwnerHeartbeat : Nat
  deriving DecidableEq, Repr

/-- The `RoomMemberInfo` record: the per-socket session pointer stored in `socketToRoom`. -/
structure RoomMemberInfo where
  roomId : String
  userId : String
  userName : String
  isOwner : Bool
  deriving DecidableEq, Repr

/-- The `WatchRoomServer` mutable state: `rooms`, `members`, `socketToRoom`. -/
structure Store where
  rooms : AssocMap Room
  members : AssocMap (AssocMap Member)
  socketToRoom : AssocMap RoomMemberInfo
  deriving DecidableEq

/-- The freshly-constructed server: three empty maps. -/
def emptyStore : Store := { rooms := [], members := [], socketToRoom := [] }

/-- Payload of an outbound socket event, covering the events the claims observe. -/
inductive Payload where
  | memberJoined (m : Member)
  | memberLeft (userId : String)
  | roomDeleted
  | stateCleared
  | playUpdate (state : PlayState)
  | playChange (state : PlayState)
  | liveChange (state : PlayState)
  | playSeek (currentTime : Nat)
  | playPlay
  | playPause
  | heartbeatPong (timestamp : Nat)
  deriving DecidableEq, Repr

/-- One outbound delivery, distinguishing the three socket.io send primitives. -/
inductive Emit where
  /-- Delivery `socket.to(roomId).emit(...)`: everyone subscribed to the room except the sender. -/
  | roomExceptSender (sender roomId : String) (p : Payload)
  /-- Delivery `io.to(roomId).emit(...)`: everyone subscribed to the room, sender included. -/
  | roomAll (roomId : String) (p : Payload)
  /-- Delivery `socket.emit(...)`: the calling connection only. -/
  | toCaller (sender : String) (p : Payload)
  deriving DecidableEq, Repr

/-- Arguments of a `room:create` request. -/
structure CreateData where
  name : String
  description : Option String
  password : Option String
  isPublic : Bool
  userName : String
  deriving DecidableEq, Repr

/-- Arguments of a `room:join` request. -/
structure JoinData where
  roomId : String
  password : Option String
  userName : String
  deriving DecidableEq, Repr

/-- Reply delivered through the `room:create` callback. -/
inductive CreateReply where
  | ok (room : Room)
  | creationFailed
  deriving DecidableEq, Repr

/-- Reply delivered through the `room:join` callback. -/
inductive JoinReply where
  | ok (room : Room) (members : List Member)
  | roomNotFound
  | badPassword
  deriving DecidableEq, Repr

/-- The JS truthiness test `room.password && room.password !== data.password`:
the stored password rejects the supplied one iff it is a non-empty string that
differs from the supplied value (`none` models an `undefined` field). -/
def passwordRejects (stored supplied : Option String) : Bool :=
  match stored with
  | none => false
  | some p => p ≠ "" && supplied ≠ some p

/-- The `room:create` handler.  `roomId` and `ownerToken` are the two
`generateRoomId()` oracle draws, `now` the `Date.now()` reading. -/
def handleCreate (socketId : String) (data : CreateData) (roomId ownerToken : String)
    (now : Nat) (s : Store) : Store × CreateReply :=
  let room : Room :=
    { id := roomId, name := data.name, description := data.description,
      password := data.password, isPublic := data.isPublic, ownerId := socketId,
      ownerName := data.userName, ownerToken := ownerToken, memberCount := 1,
      currentState := none, createdAt := now, lastOwnerHeartbeat := now }
  let member : Member :=
    { id := socketId, name := data.userName, isOwner := true, lastHeartbeat := now }
  let ptr : RoomMemberInfo :=
    { roomId := roomId, userId := socketId, userName := data.userName, isOwner := true }
  ({ rooms := set s.rooms roomId room,
     members := set s.members roomId [(socketId, member)],
     socketToRoom := set s.socketToRoom socketId ptr },
   CreateReply.ok room)

/-- The `room:join` handler. -/
def handleJoin (socketId : String) (data : JoinData) (now : Nat) (s : Store) :
    Store × List Emit × JoinReply :=
  match get s.rooms data.roomId with
  | none => (s, [], JoinReply.roomNotFound)
  | some room =>
    if passwordRejects room.password data.password then
      (s, [], JoinReply.badPassword)
    else
      let member : Member :=
        { id := socketId, name := data.userName, isOwner := false, lastHeartbeat := now }
      let (s1, room1, membersList) :=
        match get s.members data.roomId with
        | some roomMembers =>
          let roomMembers1 := set roomMembers socketId member
          let room1 := { room with memberCount := size roomMembers1 }
          ({ s with members := set s.members data.roomId roomMembers1,
                    rooms := set s.rooms data.roomId room1 },
           room1, values roomMembers1)
        | none => (s, room, [])
      let ptr : RoomMemberInfo :=
        { roomId := data.roomId, userId := socketId, userName := data.userName,
          isOwner := false }
      let s2 := { s1 with socketToRoom := set s1.socketToRoom socketId ptr }
      (s2, [Emit.roomExceptSender socketId data.roomId (Payload.memberJoined member)],
       JoinReply.ok room1 membersList)

/-- Method `deleteRoom`: broadcast `room:deleted` to the whole room, then drop the
`Room` and its membership map. -/
def deleteRoom (roomId : String) (s : Store) : Store × List Emit :=
  ({ s with rooms := del s.rooms roomId, members := del s.members roomId },
   [Emit.roomAll roomId Payload.roomDeleted])

/-- Method `handleLeaveRoom`, shared by `room:leave` and `disconnect`. -/
def handleLeaveRoom (socketId : String) (s : Store) : Store × List Emit :=
  match get s.socketToRoom socketId with
  | none => (s, [])
  | some roomInfo =>
    let (s1, emits) :=
      match get s.members roomInfo.roomId with
      | none => (s, [])
      | some roomMembers =>
        let roomMembers1 := del roomMembers roomInfo.userId
        let sA := { s with members := set s.members roomInfo.roomId roomMembers1 }
        let sB :=
          match get sA.rooms roomInfo.roomId with
          | some room =>
            let room1 := { room with memberCount := size roomMembers1 }
            { sA with rooms := set sA.rooms roomInfo.roomId room1 }
          | none => sA
        let e0 := [Emit.roomExceptSender socketId roomInfo.roomId
          (Payload.memberLeft roomInfo.userId)]
        if size roomMembers1 = 0 then
          let (sC, e1) := deleteRoom roomInfo.roomId sB
          (sC, e0 ++ e1)
        else (sB, e0)
    ({ s1 with socketToRoom := del s1.socketToRoom socketId }, emits)

/-- The `disconnect` handler routes straight through `handleLeaveRoom`. -/
def handleDisconnect (socketId : String) (s : Store) : Store × List Emit :=
  handleLeaveRoom socketId s

/-- The `play:update` handler: owner-only playback-state update. -/
def handlePlayUpdate (socketId : String) (state : PlayState) (s : Store) :
    Store × List Emit :=
  match get s.socketToRoom socketId with
  | none => (s, [])
  | some roomInfo =>
    if !roomInfo.isOwner then (s, [])
    else
      match get s.rooms roomInfo.roomId with
      | none => (s, [])
      | some room =>
        let room1 := { room with currentState := some state }
        ({ s with rooms := set s.rooms roomInfo.roomId room1 },
         [Emit.roomExceptSender socketId roomInfo.roomId (Payload.playUpdate state)])

/-- The `play:change` handler: owner-only media change, same rule as `play:update`. -/
def handlePlayChange (socketId : String) (state : PlayState) (s : Store) :
    Store × List Emit :=
  match get s.socketToRoom socketId with
  | none => (s, [])
  | some roomInfo =>
    if !roomInfo.isOwner then (s, [])
    else
      match get s.rooms roomInfo.roomId with
      | none => (s, [])
      | some room =>
        let room1 := { room with currentState := some state }
        ({ s with rooms := set s.rooms roomInfo.roomId room1 },
         [Emit.roomExceptSender socketId roomInfo.roomId (Payload.playChange state)])

/-- The `live:change` handler: owner-only live-channel change, same rule again. -/
def handleLiveChange (socketId : String) (state : PlayState) (s : Store) :
    Store × List Emit :=
  match get s.socketToRoom socketId with
  | none => (s, [])
  | some roomInfo =>
    if !roomInfo.isOwner then (s, [])
    else
      match get s.rooms roomInfo.roomId with
      | none => (s, [])
      | some room =>
        let room1 := { room with currentState := some state }
        ({ s with rooms := set s.rooms roomInfo.roomId room1 },
         [Emit.roomExceptSender socketId roomInfo.roomId (Payload.liveChange state)])

/-- The `play:seek` handler: stateless relay. -/
def handleSeek (socketId : String) (currentTime : Nat) (s : Store) : Store × List Emit :=
  match get s.socketToRoom socketId with
  | none => (s, [])
  | some roomInfo =>
    (s, [Emit.roomExceptSender socketId roomInfo.roomId (Payload.playSeek currentTime)])

/-- The `play:play` handler: stateless relay. -/
def handlePlay (socketId : String) (s : Store) : Store × List Emit :=
  match get s.socketToRoom socketId with
  | none => (s, [])
  | some roomInfo =>
    (s, [Emit.roomExceptSender socketId roomInfo.roomId Payload.playPlay])

/-- The `play:pause` handler: stateless relay. -/
def handlePause (socketId : String) (s : Store) : Store × List Emit :=
  match get s.socketToRoom socketId with
  | none => (s, [])
  | some roomInfo =>
    (s, [Emit.roomExceptSender socketId roomInfo.roomId Payload.playPause])

/-- The `heartbeat` handler. -/
def handleHeartbeat (socketId : String) (now : Nat) (s : Store) : Store × List Emit :=
  match get s.socketToRoom socketId with
  | none => (s, [])
  | some roomInfo =>
    let s1 :=
      match get s.members roomInfo.roomId with
      | none => s
      | some roomMembers =>
        match get roomMembers roomInfo.userId with
        | none => s
        | some member =>
          let member1 := { member with lastHeartbeat := now }
          { s with members := set s.members roomInfo.roomId (set roomMembers roomInfo.userId member1) }
    let s2 :=
      if roomInfo.isOwner then
        match get s1.rooms roomInfo.roomId with
        | some room =>
          let room1 := { room with lastOwnerHeartbeat := now }
          { s1 with rooms := set s1.rooms roomInfo.roomId room1 }
        | none => s1
      else s1
    (s2, [Emit.toCaller socketId (Payload.heartbeatPong now)])

/-- Constant `clearStateTimeout = 30 * 1000` (ms). -/
def clearStateTimeout : Nat := 30 * 1000

/-- Constant `deleteTimeout = 5 * 60 * 1000` (ms). -/
def deleteTimeout : Nat := 5 * 60 * 1000

/-- Body of the cleanup `forEach` callback for a single room.  `room` is the
value seen by the iteration; both threshold tests reuse the one
`timeSinceHeartbeat` reading, exactly as in the source. -/
def cleanupRoomStep (now : Nat) (roomId : String) (room : Room) (s : Store) :
    Store × List Emit :=
  let timeSinceHeartbeat := now - room.lastOwnerHeartbeat
  let (s1, e1) :=
    if timeSinceHeartbeat > clearStateTimeout ∧ room.currentState ≠ none then
      let room1 := { room with currentState := none }
      ({ s with rooms := set s.rooms roomId room1 },
       [Emit.roomAll roomId Payload.stateCleared])
    else (s, [])
  if timeSinceHeartbeat > deleteTimeout then
    let (s2, e2) := deleteRoom roomId s1
    (s2, e1 ++ e2)
  else (s1, e1)

/-- Loop `this.rooms.forEach(...)` over the entries present when the tick starts. -/
def cleanupFold (now : Nat) (entries : List (String × Room)) (s : Store)
    (acc : List Emit) : Store × List Emit :=
  match entries with
  | [] => (s, acc)
  | (roomId, room) :: rest =>
    let (s1, es) := cleanupRoomStep now roomId room s
    cleanupFold now rest s1 (acc ++ es)

/-- One reconciliation tick of `startCleanupTimer` (fires every 10 s). -/
def cleanupTick (now : Nat) (s : Store) : Store × List Emit :=
  cleanupFold now s.rooms s []

/-- Well-formedness carried by every JS `Map`: distinct keys in each of the
three store maps. -/
def storeWF (s : Store) : Prop :=
  keysNodup s.rooms ∧ keysNodup s.members ∧ keysNodup s.socketToRoom

instance {α : Type} (m : AssocMap α) : Decidable (keysNodup m) :=
  inferInstanceAs (Decidable (keys m).Nodup)

instance (s : Store) : Decidable (storeWF s) :=
  inferInstanceAs (Decidable (_ ∧ _ ∧ _))

/-- A concrete two-member room used as a test fixture: Alice owns "R1",
Bob is a guest. -/
def movieRoom : Room :=
  { id := "R1", name := "Movie", description := none, password := none,
    isPublic := true, ownerId := "sockA", ownerName := "Alice", ownerToken := "T1",
    memberCount := 2, currentState := none, createdAt := 10, lastOwnerHeartbeat := 10 }

/-- The fixture store holding `movieRoom` with members Alice and Bob. -/
def twoMemberStore : Store :=
  { rooms := [("R1", movieRoom)],
    members := [("R1", [("sockA", ⟨"sockA", "Alice", true, 10⟩),
                        ("sockB", ⟨"sockB", "Bob", false, 20⟩)])],
    socketToRoom := [("sockA", ⟨"R1", "sockA", "Alice", true⟩),
                     ("sockB", ⟨"R1", "sockB", "Bob", false⟩)] }

/-- Fixture room with a non-null playback state (owner heartbeat at t = 10). -/
def staleRoom : Room := { movieRoom with currentState := some "blob" }

/-- Fixture store: `staleRoom` with both members still present. -/
def staleStore : Store :=
  { rooms := [("R1", staleRoom)],
    members := twoMemberStore.members,
    socketToRoom := twoMemberStore.socketToRoom }

/-- An internal fault raised while the reconciliation tick processes one room. -/
inductive Fault where
  | fault
  deriving DecidableEq, Repr

/-- The `rooms.forEach(...)` loop of the cleanup tick with a per-room body
that may throw.  The source wraps the body in no try/catch, so a JS exception
propagates out of `forEach`: the remaining rooms are not visited and the
fault escapes the interval callback.  On a fault-free run it returns the ids
processed, in order. -/
def forEachRoomsE (body : String → Room → Except Fault Unit) :
    List (String × Room) → Except Fault (List String)
  | [] => Except.ok []
  | (roomId, room) :: rest =>
    match body roomId room with
    | Except.error e => Except.error e
    | Except.ok _ =>
      match forEachRoomsE body rest with
      | Except.error e => Except.error e
      | Except.ok ids => Except.ok (roomId :: ids)

/-- What the process does in reaction to an escaped exception. -/
inductive ProcessAction where
  | keepRunning
  | shutdown
  deriving DecidableEq, Repr

/-- From `index.ts`: `process.on('uncaughtException', (error) => {...
shutdown('UNCAUGHT_EXCEPTION'); })`, where `shutdown` closes the HTTP server
and calls `process.exit` (with a forced exit after a 10 s timeout).  An
exception escaping the cleanup tick therefore terminates the process. -/
def onUncaughtException : ProcessAction := ProcessAction.shutdown

/-- The C1 invariant: every existing room's `memberCount` equals the number of
entries in that room's membership map. -/
def memberCountInvariant (s : Store) : Prop :=
  ∀ roomId room, get s.rooms roomId = some room →
    ∃ rm, get s.members roomId = some rm ∧ room.memberCount = size rm

/-- Combined store health: JS-map key distinctness plus the memberCount sync. -/
def storeInv (s : Store) : Prop := storeWF s ∧ memberCountInvariant s

/-- Stores reachable from server start through any sequence of create-room,
join-room, leave-room and disconnect events. -/
inductive Reachable : Store → Prop where
  | init : Reachable emptyStore
  | create (sid : String) (data : CreateData) (roomId tok : String) (now : Nat)
      {s : Store} : Reachable s → Reachable (handleCreate sid data roomId tok now s).1
  | join (sid : String) (data : JoinData) (now : Nat) {s : Store} :
      Reachable s → Reachable (handleJoin sid data now s).1
  | leave (sid : String) {s : Store} :
      Reachable s → Reachable (handleLeaveRoom sid s).1
  | disconnect (sid : String) {s : Store} :
      Reachable s → Reachable (handleDisconnect sid s).1

/-- How many times `es` broadcasts payload `p` to the whole room `roomId`. -/
def countRoomAll (es : List Emit) (roomId : String) (p : Payload) : Nat :=
  match es with
  | [] => 0
  | e :: rest => (if e = Emit.roomAll roomId p then 1 else 0) + countRoomAll rest roomId p

namespace AssocMap

theorem get_set_self {α : Type} (m : AssocMap α) (k : String) (v : α) :
    get (set m k v) k = some v := by
  induction m with
  | nil => simp [set, get]
  | cons hd tl ih =>
    obtain ⟨k', v'⟩ := hd
    by_cases h : k' = k
    · simp [set, get, h]
    · simp [set, get, h, ih]

theorem get_set_ne {α : Type} (m : AssocMap α) (k k' : String) (v : α) (h : k ≠ k') :
    get (set m k v) k' = get m k' := by
  induction m with
  | nil => simp [set, get, h]
  | cons hd tl ih =>
    obtain ⟨k'', v''⟩ := hd
    by_cases h2 : k'' = k
    · subst h2
      simp [set, get, h]
    · simp [set, get, h2, ih]

theorem get_del_ne {α : Type} (m : AssocMap α) (k k' : String) (h : k ≠ k') :
    get (del m k) k' = get m k' := by
  induction m with
  | nil => simp [del]
  | cons hd tl ih =>
    obtain ⟨k'', v''⟩ := hd
    by_cases h2 : k'' = k
    · subst h2
      simp [del, get, h]
    · simp [del, get, h2, ih]

theorem get_eq_none_of_not_mem_keys {α : Type} (m : AssocMap α) (k : String)
    (h : k ∉ keys m) : get m k = none := by
  induction m with
  | nil => simp [get]
  | cons hd tl ih =>
    obtain ⟨k', v'⟩ := hd
    simp only [keys, List.map_cons, List.mem_cons] at h
    push_neg at h
    have hne : k' ≠ k := fun hk => h.1 hk.symm
    simp only [get, if_neg hne]
    exact ih h.2

theorem get_del_self {α : Type} (m : AssocMap α) (k : String) (h : keysNodup m) :
    get (del m k) k = none := by
  induction m with
  | nil => simp [del, get]
  | cons hd tl ih =>
    obtain ⟨k', v'⟩ := hd
    simp only [keysNodup, keys, List.map_cons, List.nodup_cons] at h
    by_cases h2 : k' = k
    · subst h2
      simp only [del, if_pos rfl]
      exact get_eq_none_of_not_mem_keys tl k' h.1
    · simp only [del, if_neg h2, get, if_neg h2]
      exact ih h.2

theorem keys_set {α : Type} (m : AssocMap α) (k : String) (v : α) :
    keys (set m k v) = keys m ∨ keys (set m k v) = keys m ++ [k] := by
  induction m with
  | nil => simp [set, keys]
  | cons hd tl ih =>
    obtain ⟨k', v'⟩ := hd
    by_cases h : k' = k
    · left; simp [set, keys, h]
    · rcases ih with ih | ih
      · left; simp [set, keys, h, ih]
        simpa [keys] using ih
      · right; simp [set, keys, h]
        simpa [keys] using ih

theorem get_eq_none_iff {α : Type} (m : AssocMap α) (k : String) :
    get m k = none ↔ k ∉ keys m := by
  constructor
  · intro h hk
    induction m with
    | nil => simp [keys] at hk
    | cons hd tl ih =>
      obtain ⟨k', v'⟩ := hd
      simp only [keys, List.map_cons, List.mem_cons] at hk
      by_cases h2 : k' = k
      · simp [get, h2] at h
      · rcases hk with hk | hk
        · exact h2 hk.symm
        · exact ih (by simpa [get, h2] using h) hk
  · exact get_eq_none_of_not_mem_keys m k

theorem keysNodup_set {α : Type} (m : AssocMap α) (k : String) (v : α)
    (h : keysNodup m) : keysNodup (set m k v) := by
  induction m with
  | nil => simp [set, keysNodup, keys]
  | cons hd tl ih =>
    obtain ⟨k', v'⟩ := hd
    simp only [keysNodup, keys, List.map_cons, List.nodup_cons] at h
    by_cases h2 : k' = k
    · simp only [set, if_pos h2, keysNodup, keys, List.map_cons, List.nodup_cons]
      exact h
    · simp only [set, if_neg h2, keysNodup, keys, List.map_cons, List.nodup_cons]
      refine ⟨?_, ih h.2⟩
      show k' ∉ keys (set tl k v)
      rcases keys_set tl k v with hk | hk
      · rw [hk]; exact h.1
      · rw [hk]
        simp only [List.mem_append, List.mem_singleton]
        rintro (hmem | rfl)
        · exact h.1 hmem
        · exact h2 rfl

theorem keys_del_subset {α : Type} (m : AssocMap α) (k : String) :
    keys (del m k) ⊆ keys m := by
  induction m with
  | nil => simp [del]
  | cons hd tl ih =>
    obtain ⟨k', v'⟩ := hd
    by_cases h : k' = k
    · simp only [del, if_pos h, keys, List.map_cons]
      exact fun x hx => List.mem_cons_of_mem _ hx
    · simp only [del, if_neg h, keys, List.map_cons]
      intro x hx
      rcases List.mem_cons.mp hx with hx | hx
      · exact List.mem_cons.mpr (Or.inl hx)
      · exact List.mem_cons.mpr (Or.inr (ih hx))

theorem keysNodup_del {α : Type} (m : AssocMap α) (k : String)
    (h : keysNodup m) : keysNodup (del m k) := by
  induction m with
  | nil => simp [del, keysNodup, keys]
  | cons hd tl ih =>
    obtain ⟨k', v'⟩ := hd
    simp only [keysNodup, keys, List.map_cons, List.nodup_cons] at h
    by_cases h2 : k' = k
    · simp only [del, if_pos h2]
      exact h.2
    · simp only [del, if_neg h2, keysNodup, keys, List.map_cons, List.nodup_cons]
      refine ⟨?_, ih h.2⟩
      intro hmem
      exact h.1 (keys_del_subset tl k hmem)

theorem length_set_of_get_some {α : Type} (m : AssocMap α) (k : String) (v w : α)
    (h : get m k = some w) : (set m k v).length = m.length := by
  induction m with
  | nil => simp [get] at h
  | cons hd tl ih =>
    obtain ⟨k', v'⟩ := hd
    by_cases h2 : k' = k
    · simp [set, h2]
    · simp only [get, if_neg h2] at h
      simp [set, h2, ih h]


theorem mem_of_get_some {α : Type} (m : AssocMap α) (k : String) (v : α)
    (h : get m k = some v) : (k, v) ∈ m := by
  induction m with
  | nil => exact Option.noConfusion h
  | cons hd tl ih =>
    obtain ⟨k2, v2⟩ := hd
    by_cases h2 : k2 = k
    · subst h2
      simp only [get, if_pos rfl] at h
      obtain rfl := Option.some.inj h
      exact List.mem_cons_self _ _
    · simp only [get, if_neg h2] at h
      exact List.mem_cons_of_mem _ (ih h)

end AssocMap

/-- C9: seek, play and pause are stateless relays.  If the caller has no
session pointer nothing happens; if it has one — owner or not, the flag is
never read — the event is relayed to the rest of the caller's room and the
store is returned untouched: every `Room`, `Member` and session-pointer field
is the same after the event as before. -/
theorem seek_play_pause_stateless_relay (s : Store) (sid : String) (t : Nat) :
    (get s.socketToRoom sid = none →
      handleSeek sid t s = (s, []) ∧
      handlePlay sid s = (s, []) ∧
      handlePause sid s = (s, [])) ∧
    (∀ ri : RoomMemberInfo, get s.socketToRoom sid = some ri →
      handleSeek sid t s =
        (s, [Emit.roomExceptSender sid ri.roomId (Payload.playSeek t)]) ∧
      handlePlay sid s =
        (s, [Emit.roomExceptSender sid ri.roomId Payload.playPlay]) ∧
      handlePause sid s =
        (s, [Emit.roomExceptSender sid ri.roomId Payload.playPause])) := by
  constructor
  · intro h
    simp [handleSeek, handlePlay, handlePause, h]
  · intro ri h
    simp [handleSeek, handlePlay, handlePause, h]

/-- C9 witness: a concrete guest (not the owner) relays seek/play/pause with
the store unchanged. -/
theorem seek_play_pause_stateless_relay_witness :
    handleSeek "sockB" 120
        { rooms := [], members := [],
          socketToRoom := [("sockB", ⟨"R1", "sockB", "Bob", false⟩)] } =
      ({ rooms := [], members := [],
         socketToRoom := [("sockB", ⟨"R1", "sockB", "Bob", false⟩)] },
       [Emit.roomExceptSender "sockB" "R1" (Payload.playSeek 120)]) :=
  ((seek_play_pause_stateless_relay
      { rooms := [], members := [],
        socketToRoom := [("sockB", ⟨"R1", "sockB", "Bob", false⟩)] }
      "sockB" 120).2 ⟨"R1", "sockB", "Bob", false⟩ (by decide)).1

/-- C10: a room whose stored password is absent (`undefined`) or the empty
string never rejects a joiner with `BadPassword`: the JS truthiness guard
`room.password && ...` skips the comparison, so any supplied password —
including none — is accepted and the join succeeds. -/
theorem empty_password_never_bad_password (s : Store) (sid : String) (data : JoinData)
    (now : Nat) (room : Room)
    (hroom : get s.rooms data.roomId = some room)
    (hpw : room.password = none ∨ room.password = some "") :
    (handleJoin sid data now s).2.2 ≠ JoinReply.badPassword ∧
    ∃ r ms, (handleJoin sid data now s).2.2 = JoinReply.ok r ms := by
  have hrej : passwordRejects room.password data.password = false := by
    rcases hpw with h | h <;> simp [passwordRejects, h]
  simp only [handleJoin, hroom, hrej, Bool.false_eq_true, if_neg]
  cases hm : get s.members data.roomId with
  | none => simp
  | some rm => simp

/-- C10 witness: a room with stored password `""` accepts a joiner supplying
the wrong password `"zzz"`. -/
theorem empty_password_never_bad_password_witness :
    (handleJoin "sockF" ⟨"R3", some "zzz", "Fay"⟩ 5
        (handleCreate "sockE" ⟨"Show", none, some "", true, "Eve"⟩ "R3" "T3" 10
          emptyStore).1).2.2 ≠ JoinReply.badPassword :=
  (empty_password_never_bad_password
    (handleCreate "sockE" ⟨"Show", none, some "", true, "Eve"⟩ "R3" "T3" 10 emptyStore).1
    "sockF" ⟨"R3", some "zzz", "Fay"⟩ 5
    { id := "R3", name := "Show", description := none, password := some "",
      isPublic := true, ownerId := "sockE", ownerName := "Eve", ownerToken := "T3",
      memberCount := 1, currentState := none, createdAt := 10, lastOwnerHeartbeat := 10 }
    (by decide) (Or.inr rfl)).1

/-- C4: `play:update`, `play:change` and `live:change` all follow one rule.
When the caller's session pointer carries the owner flag and its room exists,
the room's current playback state becomes the given state and the state is
relayed to the rest of the room, excluding the sender.  When the caller has no
session pointer, or has one without the owner flag, all three handlers return
the store untouched with no broadcast and surface no error. -/
theorem owner_only_playback_mutation (s : Store) (sid : String) (state : PlayState) :
    (get s.socketToRoom sid = none →
      handlePlayUpdate sid state s = (s, []) ∧
      handlePlayChange sid state s = (s, []) ∧
      handleLiveChange sid state s = (s, [])) ∧
    (∀ ri : RoomMemberInfo, get s.socketToRoom sid = some ri → ri.isOwner = false →
      handlePlayUpdate sid state s = (s, []) ∧
      handlePlayChange sid state s = (s, []) ∧
      handleLiveChange sid state s = (s, [])) ∧
    (∀ ri : RoomMemberInfo, ∀ room : Room,
      get s.socketToRoom sid = some ri → ri.isOwner = true →
      get s.rooms ri.roomId = some room →
      handlePlayUpdate sid state s =
        ({ s with rooms := set s.rooms ri.roomId ({ room with currentState := some state }) },
         [Emit.roomExceptSender sid ri.roomId (Payload.playUpdate state)]) ∧
      handlePlayChange sid state s =
        ({ s with rooms := set s.rooms ri.roomId ({ room with currentState := some state }) },
         [Emit.roomExceptSender sid ri.roomId (Payload.playChange state)]) ∧
      handleLiveChange sid state s =
        ({ s with rooms := set s.rooms ri.roomId ({ room with currentState := some state }) },
         [Emit.roomExceptSender sid ri.roomId (Payload.liveChange state)])) := by
  refine ⟨fun h => ?_, fun ri hptr hown => ?_, fun ri room hptr hown hroom => ?_⟩
  · simp [handlePlayUpdate, handlePlayChange, handleLiveChange, h]
  · simp [handlePlayUpdate, handlePlayChange, handleLiveChange, hptr, hown]
  · simp [handlePlayUpdate, handlePlayChange, handleLiveChange, hptr, hown, hroom]

/-- C4 witness: in the concrete two-member room, the owner's update is relayed
once to the rest of the room; the guest's attempt is a silent no-op. -/
theorem owner_only_playback_mutation_witness :
    (handlePlayUpdate "sockA" "blob" twoMemberStore).2 =
      [Emit.roomExceptSender "sockA" "R1" (Payload.playUpdate "blob")] ∧
    handlePlayUpdate "sockB" "blob" twoMemberStore = (twoMemberStore, []) := by
  constructor
  · exact congrArg Prod.snd
      (((owner_only_playback_mutation twoMemberStore "sockA" "blob").2.2
        ⟨"R1", "sockA", "Alice", true⟩ movieRoom (by decide) rfl (by decide)).1)
  · exact ((owner_only_playback_mutation twoMemberStore "sockB" "blob").2.1
      ⟨"R1", "sockB", "Bob", false⟩ (by decide) rfl).1

/-- C3: `room:join` error handling.  An unknown room id fails with
`RoomNotFound`; a non-matching password on a password-protected room fails
with `BadPassword`; in both failure cases the handler returns the store
exactly as it was (membership map, memberCount, session pointers all
unchanged) and emits nothing.  On success a guest `Member` is added to the
membership map, the room's `memberCount` is set to the new map size, a
session pointer is registered for the joiner, a `room:member-joined` event is
relayed to the existing members (excluding the joiner), and the joiner's
callback carries the room plus the full current member list. -/
theorem join_error_handling (s : Store) (sid : String) (data : JoinData) (now : Nat) :
    (get s.rooms data.roomId = none →
      handleJoin sid data now s = (s, [], JoinReply.roomNotFound)) ∧
    (∀ room : Room, get s.rooms data.roomId = some room →
      passwordRejects room.password data.password = true →
      handleJoin sid data now s = (s, [], JoinReply.badPassword)) ∧
    (∀ room : Room, ∀ rm : AssocMap Member,
      get s.rooms data.roomId = some room →
      passwordRejects room.password data.password = false →
      get s.members data.roomId = some rm →
      get (handleJoin sid data now s).1.members data.roomId =
        some (set rm sid ⟨sid, data.userName, false, now⟩) ∧
      get (handleJoin sid data now s).1.rooms data.roomId =
        some { room with memberCount := size (set rm sid ⟨sid, data.userName, false, now⟩) } ∧
      get (handleJoin sid data now s).1.socketToRoom sid =
        some ⟨data.roomId, sid, data.userName, false⟩ ∧
      (handleJoin sid data now s).2.1 =
        [Emit.roomExceptSender sid data.roomId
          (Payload.memberJoined ⟨sid, data.userName, false, now⟩)] ∧
      (handleJoin sid data now s).2.2 =
        JoinReply.ok { room with memberCount := size (set rm sid ⟨sid, data.userName, false, now⟩) }
          (values (set rm sid ⟨sid, data.userName, false, now⟩))) := by
  refine ⟨fun h => ?_, fun room hroom hrej => ?_, fun room rm hroom hrej hrm => ?_⟩
  · simp [handleJoin, h]
  · simp [handleJoin, hroom, hrej]
  · simp only [handleJoin, hroom, hrej, Bool.false_eq_true, if_neg, hrm]
    simp [get_set_self]

/-- C3 witness: joining an unknown room fails with `RoomNotFound` and leaves
the one-room store untouched; joining the existing room with the right
password adds the guest. -/
theorem join_error_handling_witness :
    handleJoin "sockB" ⟨"NOPE", none, "Bob"⟩ 20
        (handleCreate "sockA" ⟨"Movie", none, none, true, "Alice"⟩ "R1" "T1" 10
          emptyStore).1 =
      ((handleCreate "sockA" ⟨"Movie", none, none, true, "Alice"⟩ "R1" "T1" 10
          emptyStore).1, [], JoinReply.roomNotFound) ∧
    (handleJoin "sockB" ⟨"R1", none, "Bob"⟩ 20
        (handleCreate "sockA" ⟨"Movie", none, none, true, "Alice"⟩ "R1" "T1" 10
          emptyStore).1).2.2 =
      JoinReply.ok
        { id := "R1", name := "Movie", description := none, password := none,
          isPublic := true, ownerId := "sockA", ownerName := "Alice", ownerToken := "T1",
          memberCount := 2, currentState := none, createdAt := 10, lastOwnerHeartbeat := 10 }
        [⟨"sockA", "Alice", true, 10⟩, ⟨"sockB", "Bob", false, 20⟩] := by
  constructor
  · exact (join_error_handling
      (handleCreate "sockA" ⟨"Movie", none, none, true, "Alice"⟩ "R1" "T1" 10 emptyStore).1
      "sockB" ⟨"NOPE", none, "Bob"⟩ 20).1 (by decide)
  · exact ((join_error_handling
      (handleCreate "sockA" ⟨"Movie", none, none, true, "Alice"⟩ "R1" "T1" 10 emptyStore).1
      "sockB" ⟨"R1", none, "Bob"⟩ 20).2.2
      { id := "R1", name := "Movie", description := none, password := none,
        isPublic := true, ownerId := "sockA", ownerName := "Alice", ownerToken := "T1",
        memberCount := 1, currentState := none, createdAt := 10, lastOwnerHeartbeat := 10 }
      [("sockA", ⟨"sockA", "Alice", true, 10⟩)]
      (by decide) (by decide) (by decide)).2.2.2.2

/-- C6 counterexample: `sockC` is an authenticated connection (authentication
happens at connection-open, before any event handler runs) that is not in any
room, so it has no session pointer.  Its heartbeat is dropped at the
`if (!roomInfo) return` guard: no pong is sent, refuting the claim that every
authenticated caller receives a pong. -/
theorem heartbeat_without_pointer_sends_no_pong :
    handleHeartbeat "sockC" 50 twoMemberStore = (twoMemberStore, []) := by decide

/-- C6 (amended): for every heartbeat from a connection that has an active
session pointer, the handler always replies with exactly one pong to the
caller carrying the server time; it updates the member's last-heartbeat
timestamp when the member record exists, updates the room's
last-owner-heartbeat when the pointer carries the owner flag and the room
exists, and leaves `rooms` untouched for a non-owner. -/
theorem heartbeat_updates_and_pongs (s : Store) (sid : String) (now : Nat)
    (ri : RoomMemberInfo) (hptr : get s.socketToRoom sid = some ri) :
    (handleHeartbeat sid now s).2 = [Emit.toCaller sid (Payload.heartbeatPong now)] ∧
    (∀ rm : AssocMap Member, ∀ member : Member,
      get s.members ri.roomId = some rm → get rm ri.userId = some member →
      get (handleHeartbeat sid now s).1.members ri.roomId =
        some (set rm ri.userId { member with lastHeartbeat := now })) ∧
    (ri.isOwner = true → ∀ room : Room, get s.rooms ri.roomId = some room →
      get (handleHeartbeat sid now s).1.rooms ri.roomId =
        some { room with lastOwnerHeartbeat := now }) ∧
    (ri.isOwner = false → (handleHeartbeat sid now s).1.rooms = s.rooms) := by
  refine ⟨?_, ?_, ?_, ?_⟩
  · simp only [handleHeartbeat, hptr]
  · intro rm member hm hmem
    simp only [handleHeartbeat, hptr, hm, hmem]
    cases hown : ri.isOwner with
    | false => simp [get_set_self]
    | true =>
      cases hr : get s.rooms ri.roomId with
      | none => simp [hr, get_set_self]
      | some room => simp [hr, get_set_self]
  · intro hown room hroom
    simp only [handleHeartbeat, hptr, hown]
    cases hm : get s.members ri.roomId with
    | none => simp [hm, hroom, get_set_self]
    | some rm =>
      cases hmem : get rm ri.userId with
      | none => simp [hm, hmem, hroom, get_set_self]
      | some member => simp [hm, hmem, hroom, get_set_self]
  · intro hown
    simp only [handleHeartbeat, hptr, hown]
    cases hm : get s.members ri.roomId with
    | none => simp [hm]
    | some rm =>
      cases hmem : get rm ri.userId with
      | none => simp [hm, hmem]
      | some member => simp [hm, hmem]

/-- C6 witness: the owner's heartbeat in the fixture store yields exactly one
pong to the owner and refreshes the room's last-owner-heartbeat. -/
theorem heartbeat_updates_and_pongs_witness :
    (handleHeartbeat "sockA" 99 twoMemberStore).2 =
      [Emit.toCaller "sockA" (Payload.heartbeatPong 99)] ∧
    get (handleHeartbeat "sockA" 99 twoMemberStore).1.rooms "R1" =
      some { movieRoom with lastOwnerHeartbeat := 99 } :=
  ⟨(heartbeat_updates_and_pongs twoMemberStore "sockA" 99
      ⟨"R1", "sockA", "Alice", true⟩ (by decide)).1,
   (heartbeat_updates_and_pongs twoMemberStore "sockA" 99
      ⟨"R1", "sockA", "Alice", true⟩ (by decide)).2.2.1 rfl movieRoom (by decide)⟩

/-- C7 counterexample: `generateRoomId` draws six random base-36 characters
and is never checked against the store, so a collision overwrites.  Starting
from the empty store, Alice creates a room and the oracle draws id "R1"; Bob
then creates a room and the oracle draws "R1" again.  The store ends with a
single room under "R1" owned by Bob: Alice's `Room` and membership map were
replaced, refuting the claim that the generator-assigned id always differs
from every id already present. -/
theorem create_with_colliding_id_overwrites :
    ((handleCreate "sockB" ⟨"Second", none, none, true, "Bob"⟩ "R1" "T2" 20
        (handleCreate "sockA" ⟨"First", none, none, true, "Alice"⟩ "R1" "T1" 10
          emptyStore).1).1).rooms.length = 1 ∧
    (get ((handleCreate "sockB" ⟨"Second", none, none, true, "Bob"⟩ "R1" "T2" 20
        (handleCreate "sockA" ⟨"First", none, none, true, "Alice"⟩ "R1" "T1" 10
          emptyStore).1).1).rooms "R1").map Room.ownerId = some "sockB" := by decide

/-- C7 (amended): create-room stores the new `Room` under whatever id the
generator returned, with no uniqueness check: if that id already names a room
in the store, the existing `Room` and its membership map are overwritten in
place (the map does not grow and the id now maps to the caller's room). -/
theorem create_overwrites_existing_id (s : Store) (sid : String) (data : CreateData)
    (roomId tok : String) (now : Nat) (oldRoom : Room)
    (h : get s.rooms roomId = some oldRoom) :
    (get (handleCreate sid data roomId tok now s).1.rooms roomId).map Room.ownerId =
      some sid ∧
    (handleCreate sid data roomId tok now s).1.rooms.length = s.rooms.length ∧
    get (handleCreate sid data roomId tok now s).1.members roomId =
      some [(sid, ⟨sid, data.userName, true, now⟩)] := by
  refine ⟨?_, ?_, ?_⟩
  · simp [handleCreate, get_set_self]
  · exact length_set_of_get_some s.rooms roomId _ oldRoom h
  · simp [handleCreate, get_set_self]

/-- C7 witness: with room "R1" already present in the fixture store, a create
that draws the colliding id "R1" replaces it with the caller's room. -/
theorem create_overwrites_existing_id_witness :
    (get (handleCreate "sockZ" ⟨"Mine", none, none, false, "Zoe"⟩ "R1" "T9" 77
        twoMemberStore).1.rooms "R1").map Room.ownerId = some "sockZ" :=
  (create_overwrites_existing_id twoMemberStore "sockZ" ⟨"Mine", none, none, false, "Zoe"⟩
    "R1" "T9" 77 movieRoom (by decide)).1

/-- C8 counterexample: a fault raised while processing the first of two rooms
makes the whole scan return the error — the second room is never visited, so
its overdue work is not done — and the process-level `uncaughtException`
handler responds by shutting the process down, not by keeping it running.
This refutes the claim that a fault neither stops the scan nor terminates the
process. -/
theorem cleanup_fault_stops_scan_and_process :
    forEachRoomsE
        (fun roomId _ => if roomId = "R1" then Except.error Fault.fault else Except.ok ())
        [("R1", movieRoom), ("R2", { movieRoom with id := "R2" })] =
      Except.error Fault.fault ∧
    onUncaughtException ≠ ProcessAction.keepRunning := by
  exact ⟨rfl, by simp [onUncaughtException]⟩

/-- C8 (amended): an uncaught internal fault raised while processing one room
propagates out of the unguarded `forEach`, aborting the scan before any later
room is visited, and the `uncaughtException` handler installed in `index.ts`
then shuts the process down. -/
theorem cleanup_fault_aborts_scan (body : String → Room → Except Fault Unit)
    (k : String) (r : Room) (rest : List (String × Room)) (e : Fault)
    (h : body k r = Except.error e) :
    forEachRoomsE body ((k, r) :: rest) = Except.error e ∧
    onUncaughtException = ProcessAction.shutdown := by
  refine ⟨?_, rfl⟩
  simp [forEachRoomsE, h]

/-- C8 witness: the amended statement applied to a concrete always-faulting
body over a one-room list. -/
theorem cleanup_fault_aborts_scan_witness :
    forEachRoomsE (fun _ _ => Except.error Fault.fault) [("R9", movieRoom)] =
      Except.error Fault.fault ∧
    onUncaughtException = ProcessAction.shutdown :=
  cleanup_fault_aborts_scan (fun _ _ => Except.error Fault.fault) "R9" movieRoom []
    Fault.fault rfl

/-- C5: when the leaver is the last remaining member of its room (the room's
membership map holds exactly their entry), `handleLeaveRoom` — reached both by
`room:leave` and by `disconnect` — deletes the `Room` and its membership map
(neither is retrievable by the room id afterwards), removes the leaver's
session pointer, and its outbound traffic ends with the `room:deleted`
broadcast, which is therefore the last event observed for that room id; and if
the leaver held the only session pointer into the room, no pointer into it
remains. -/
theorem last_member_leave_deletes_room (s : Store) (sid : String)
    (ri : RoomMemberInfo) (m : Member)
    (hwf : storeWF s)
    (hptr : get s.socketToRoom sid = some ri)
    (hrm : get s.members ri.roomId = some [(ri.userId, m)]) :
    get (handleLeaveRoom sid s).1.rooms ri.roomId = none ∧
    get (handleLeaveRoom sid s).1.members ri.roomId = none ∧
    get (handleLeaveRoom sid s).1.socketToRoom sid = none ∧
    (handleLeaveRoom sid s).2 =
      [Emit.roomExceptSender sid ri.roomId (Payload.memberLeft ri.userId),
       Emit.roomAll ri.roomId Payload.roomDeleted] ∧
    (handleLeaveRoom sid s).2.getLast? =
      some (Emit.roomAll ri.roomId Payload.roomDeleted) ∧
    ((∀ sid2 ri2, get s.socketToRoom sid2 = some ri2 →
        ri2.roomId = ri.roomId → sid2 = sid) →
      ∀ sid2 ri2, get (handleLeaveRoom sid s).1.socketToRoom sid2 = some ri2 →
        ri2.roomId ≠ ri.roomId) := by
  obtain ⟨hnr, hnm, hns⟩ := hwf
  have hdel : del [(ri.userId, m)] ri.userId = ([] : AssocMap Member) := by
    simp [del]
  have main : ∀ T : Store × List Emit, handleLeaveRoom sid s = T →
      T.1.socketToRoom = del s.socketToRoom sid →
      get T.1.rooms ri.roomId = none →
      get T.1.members ri.roomId = none →
      T.2 = [Emit.roomExceptSender sid ri.roomId (Payload.memberLeft ri.userId),
             Emit.roomAll ri.roomId Payload.roomDeleted] →
      get (handleLeaveRoom sid s).1.rooms ri.roomId = none ∧
      get (handleLeaveRoom sid s).1.members ri.roomId = none ∧
      get (handleLeaveRoom sid s).1.socketToRoom sid = none ∧
      (handleLeaveRoom sid s).2 =
        [Emit.roomExceptSender sid ri.roomId (Payload.memberLeft ri.userId),
         Emit.roomAll ri.roomId Payload.roomDeleted] ∧
      (handleLeaveRoom sid s).2.getLast? =
        some (Emit.roomAll ri.roomId Payload.roomDeleted) ∧
      ((∀ sid2 ri2, get s.socketToRoom sid2 = some ri2 →
          ri2.roomId = ri.roomId → sid2 = sid) →
        ∀ sid2 ri2, get (handleLeaveRoom sid s).1.socketToRoom sid2 = some ri2 →
          ri2.roomId ≠ ri.roomId) := by
    rintro ⟨S, E⟩ hT hptrT hroomT hmemT hET
    rw [hT]
    refine ⟨hroomT, hmemT, ?_, hET, by rw [hET]; rfl, ?_⟩
    · rw [hptrT]
      exact get_del_self s.socketToRoom sid hns
    · intro hu sid2 ri2 h2 hrid
      rw [hptrT] at h2
      by_cases heq : sid2 = sid
      · subst heq
        rw [get_del_self _ _ hns] at h2
        exact Option.noConfusion h2
      · rw [get_del_ne _ _ _ (fun hh => heq hh.symm)] at h2
        exact heq (hu sid2 ri2 h2 hrid)
  cases hr : get s.rooms ri.roomId with
  | none =>
    have heq : handleLeaveRoom sid s =
        ({ rooms := del s.rooms ri.roomId,
           members := del (set s.members ri.roomId []) ri.roomId,
           socketToRoom := del s.socketToRoom sid },
         [Emit.roomExceptSender sid ri.roomId (Payload.memberLeft ri.userId),
          Emit.roomAll ri.roomId Payload.roomDeleted]) := by
      simp [handleLeaveRoom, hptr, hrm, hdel, deleteRoom, size, hr]
    refine main _ heq rfl ?_ ?_ rfl
    · simpa using get_del_self s.rooms ri.roomId hnr
    · simpa using get_del_self _ ri.roomId (keysNodup_set s.members ri.roomId [] hnm)
  | some room =>
    have heq : handleLeaveRoom sid s =
        ({ rooms := del (set s.rooms ri.roomId { room with memberCount := 0 }) ri.roomId,
           members := del (set s.members ri.roomId []) ri.roomId,
           socketToRoom := del s.socketToRoom sid },
         [Emit.roomExceptSender sid ri.roomId (Payload.memberLeft ri.userId),
          Emit.roomAll ri.roomId Payload.roomDeleted]) := by
      simp [handleLeaveRoom, hptr, hrm, hdel, deleteRoom, size, hr]
    refine main _ heq rfl ?_ ?_ rfl
    · simpa using get_del_self _ ri.roomId
        (keysNodup_set s.rooms ri.roomId { room with memberCount := 0 } hnr)
    · simpa using get_del_self _ ri.roomId (keysNodup_set s.members ri.roomId [] hnm)

/-- C5 witness: Alice is the sole member of the room she created; her leave
deletes the room, membership map and pointer, and ends with `room:deleted`. -/
theorem last_member_leave_deletes_room_witness :
    get (handleLeaveRoom "sockA"
        (handleCreate "sockA" ⟨"Movie", none, none, true, "Alice"⟩ "R1" "T1" 10
          emptyStore).1).1.rooms "R1" = none ∧
    (handleLeaveRoom "sockA"
        (handleCreate "sockA" ⟨"Movie", none, none, true, "Alice"⟩ "R1" "T1" 10
          emptyStore).1).2.getLast? =
      some (Emit.roomAll "R1" Payload.roomDeleted) :=
  ⟨(last_member_leave_deletes_room
      (handleCreate "sockA" ⟨"Movie", none, none, true, "Alice"⟩ "R1" "T1" 10
        emptyStore).1
      "sockA" ⟨"R1", "sockA", "Alice", true⟩ ⟨"sockA", "Alice", true, 10⟩
      (by decide) (by decide) (by decide)).1,
   (last_member_leave_deletes_room
      (handleCreate "sockA" ⟨"Movie", none, none, true, "Alice"⟩ "R1" "T1" 10
        emptyStore).1
      "sockA" ⟨"R1", "sockA", "Alice", true⟩ ⟨"sockA", "Alice", true, 10⟩
      (by decide) (by decide) (by decide)).2.2.2.2.1⟩

theorem storeInv_empty : storeInv emptyStore := by
  constructor
  · exact ⟨List.nodup_nil, List.nodup_nil, List.nodup_nil⟩
  · intro roomId room h
    exact Option.noConfusion h

theorem storeInv_create (sid : String) (data : CreateData) (roomId tok : String)
    (now : Nat) (s : Store) (h : storeInv s) :
    storeInv (handleCreate sid data roomId tok now s).1 := by
  obtain ⟨⟨hnr, hnm, hns⟩, hinv⟩ := h
  constructor
  · exact ⟨keysNodup_set _ _ _ hnr, keysNodup_set _ _ _ hnm, keysNodup_set _ _ _ hns⟩
  · intro rid room hroom
    simp only [handleCreate] at hroom ⊢
    by_cases hk : roomId = rid
    · subst hk
      rw [get_set_self] at hroom
      obtain rfl := (Option.some.inj hroom).symm
      exact ⟨[(sid, ⟨sid, data.userName, true, now⟩)], get_set_self _ _ _, rfl⟩
    · rw [get_set_ne _ _ _ _ hk] at hroom
      obtain ⟨rm, hrm, hc⟩ := hinv rid room hroom
      refine ⟨rm, ?_, hc⟩
      rw [get_set_ne _ _ _ _ hk]
      exact hrm

theorem storeInv_join (sid : String) (data : JoinData) (now : Nat) (s : Store)
    (h : storeInv s) : storeInv (handleJoin sid data now s).1 := by
  obtain ⟨⟨hnr, hnm, hns⟩, hinv⟩ := h
  cases hroom : get s.rooms data.roomId with
  | none =>
    simp only [handleJoin, hroom]
    exact ⟨⟨hnr, hnm, hns⟩, hinv⟩
  | some room =>
    cases hrej : passwordRejects room.password data.password with
    | true =>
      simp only [handleJoin, hroom, hrej, if_true]
      exact ⟨⟨hnr, hnm, hns⟩, hinv⟩
    | false =>
      cases hrm : get s.members data.roomId with
      | none =>
        simp only [handleJoin, hroom, hrej, hrm, Bool.false_eq_true, if_false]
        refine ⟨⟨hnr, hnm, keysNodup_set _ _ _ hns⟩, ?_⟩
        intro rid r hr
        exact hinv rid r hr
      | some rm =>
        simp only [handleJoin, hroom, hrej, hrm, Bool.false_eq_true, if_false]
        refine ⟨⟨keysNodup_set _ _ _ hnr, keysNodup_set _ _ _ hnm,
                 keysNodup_set _ _ _ hns⟩, ?_⟩
        intro rid r hr
        by_cases hk : data.roomId = rid
        · subst hk
          rw [get_set_self] at hr
          obtain rfl := (Option.some.inj hr).symm
          exact ⟨set rm sid ⟨sid, data.userName, false, now⟩, get_set_self _ _ _, rfl⟩
        · rw [get_set_ne _ _ _ _ hk] at hr
          obtain ⟨rm2, hrm2, hc⟩ := hinv rid r hr
          refine ⟨rm2, ?_, hc⟩
          rw [get_set_ne _ _ _ _ hk]
          exact hrm2

theorem storeInv_leave (sid : String) (s : Store) (h : storeInv s) :
    storeInv (handleLeaveRoom sid s).1 := by
  obtain ⟨⟨hnr, hnm, hns⟩, hinv⟩ := h
  cases hptr : get s.socketToRoom sid with
  | none =>
    simp only [handleLeaveRoom, hptr]
    exact ⟨⟨hnr, hnm, hns⟩, hinv⟩
  | some ri =>
    cases hrm : get s.members ri.roomId with
    | none =>
      simp only [handleLeaveRoom, hptr, hrm]
      exact ⟨⟨hnr, hnm, keysNodup_del _ _ hns⟩, hinv⟩
    | some rm =>
      cases hr : get s.rooms ri.roomId with
      | none =>
        by_cases hsize : size (del rm ri.userId) = 0
        · have heq : (handleLeaveRoom sid s).1 =
              { rooms := del s.rooms ri.roomId,
                members := del (set s.members ri.roomId (del rm ri.userId)) ri.roomId,
                socketToRoom := del s.socketToRoom sid } := by
            simp [handleLeaveRoom, hptr, hrm, hr, deleteRoom, hsize]
          rw [heq]
          refine ⟨⟨keysNodup_del _ _ hnr, keysNodup_del _ _ (keysNodup_set _ _ _ hnm),
                   keysNodup_del _ _ hns⟩, ?_⟩
          intro rid r hrd
          by_cases hk : ri.roomId = rid
          · subst hk
            rw [get_del_self _ _ hnr] at hrd
            exact Option.noConfusion hrd
          · rw [get_del_ne _ _ _ hk] at hrd
            obtain ⟨rm2, hrm2, hc⟩ := hinv rid r hrd
            refine ⟨rm2, ?_, hc⟩
            rw [get_del_ne _ _ _ hk, get_set_ne _ _ _ _ hk]
            exact hrm2
        · have heq : (handleLeaveRoom sid s).1 =
              { rooms := s.rooms,
                members := set s.members ri.roomId (del rm ri.userId),
                socketToRoom := del s.socketToRoom sid } := by
            simp [handleLeaveRoom, hptr, hrm, hr, hsize]
          rw [heq]
          refine ⟨⟨hnr, keysNodup_set _ _ _ hnm, keysNodup_del _ _ hns⟩, ?_⟩
          intro rid r hrd
          by_cases hk : ri.roomId = rid
          · subst hk
            rw [hr] at hrd
            exact Option.noConfusion hrd
          · obtain ⟨rm2, hrm2, hc⟩ := hinv rid r hrd
            refine ⟨rm2, ?_, hc⟩
            rw [get_set_ne _ _ _ _ hk]
            exact hrm2
      | some room =>
        by_cases hsize : size (del rm ri.userId) = 0
        · have heq : (handleLeaveRoom sid s).1 =
              { rooms := del (set s.rooms ri.roomId
                  { room with memberCount := size (del rm ri.userId) }) ri.roomId,
                members := del (set s.members ri.roomId (del rm ri.userId)) ri.roomId,
                socketToRoom := del s.socketToRoom sid } := by
            simp [handleLeaveRoom, hptr, hrm, hr, deleteRoom, hsize]
          rw [heq]
          refine ⟨⟨keysNodup_del _ _ (keysNodup_set _ _ _ hnr),
                   keysNodup_del _ _ (keysNodup_set _ _ _ hnm),
                   keysNodup_del _ _ hns⟩, ?_⟩
          intro rid r hrd
          by_cases hk : ri.roomId = rid
          · subst hk
            rw [get_del_self _ _ (keysNodup_set _ _ _ hnr)] at hrd
            exact Option.noConfusion hrd
          · rw [get_del_ne _ _ _ hk, get_set_ne _ _ _ _ hk] at hrd
            obtain ⟨rm2, hrm2, hc⟩ := hinv rid r hrd
            refine ⟨rm2, ?_, hc⟩
            rw [get_del_ne _ _ _ hk, get_set_ne _ _ _ _ hk]
            exact hrm2
        · have heq : (handleLeaveRoom sid s).1 =
              { rooms := set s.rooms ri.roomId
                  { room with memberCount := size (del rm ri.userId) },
                members := set s.members ri.roomId (del rm ri.userId),
                socketToRoom := del s.socketToRoom sid } := by
            simp [handleLeaveRoom, hptr, hrm, hr, hsize]
          rw [heq]
          refine ⟨⟨keysNodup_set _ _ _ hnr, keysNodup_set _ _ _ hnm,
                   keysNodup_del _ _ hns⟩, ?_⟩
          intro rid r hrd
          by_cases hk : ri.roomId = rid
          · subst hk
            rw [get_set_self] at hrd
            obtain rfl := (Option.some.inj hrd).symm
            exact ⟨del rm ri.userId, get_set_self _ _ _, rfl⟩
          · rw [get_set_ne _ _ _ _ hk] at hrd
            obtain ⟨rm2, hrm2, hc⟩ := hinv rid r hrd
            refine ⟨rm2, ?_, hc⟩
            rw [get_set_ne _ _ _ _ hk]
            exact hrm2

theorem storeInv_reachable (s : Store) (h : Reachable s) : storeInv s := by
  induction h with
  | init => exact storeInv_empty
  | create sid data roomId tok now _ ih => exact storeInv_create sid data roomId tok now _ ih
  | join sid data now _ ih => exact storeInv_join sid data now _ ih
  | leave sid _ ih => exact storeInv_leave sid _ ih
  | disconnect sid _ ih => exact storeInv_leave sid _ ih

/-- C1: in every store reachable through any sequence of create-room,
join-room, leave-room and disconnect events, every existing room's
`memberCount` field equals the number of entries in that room's membership
map. -/
theorem memberCount_equals_membership_size (s : Store) (h : Reachable s) :
    memberCountInvariant s :=
  (storeInv_reachable s h).2

/-- C1 witness: after a concrete create followed by a join, the invariant
holds of the resulting store. -/
theorem memberCount_equals_membership_size_witness :
    memberCountInvariant (handleJoin "sockB" ⟨"R1", none, "Bob"⟩ 20
      (handleCreate "sockA" ⟨"Movie", none, none, true, "Alice"⟩ "R1" "T1" 10
        emptyStore).1).1 :=
  memberCount_equals_membership_size _
    (Reachable.join "sockB" ⟨"R1", none, "Bob"⟩ 20
      (Reachable.create "sockA" ⟨"Movie", none, none, true, "Alice"⟩ "R1" "T1" 10
        Reachable.init))

theorem countRoomAll_append (a b : List Emit) (k : String) (p : Payload) :
    countRoomAll (a ++ b) k p = countRoomAll a k p + countRoomAll b k p := by
  induction a with
  | nil => simp [countRoomAll]
  | cons e rest ih => simp [countRoomAll, ih]; omega

theorem cleanupRoomStep_rooms_ne (now : Nat) (k : String) (r : Room) (s : Store)
    (k' : String) (h : k ≠ k') :
    get (cleanupRoomStep now k r s).1.rooms k' = get s.rooms k' ∧
    get (cleanupRoomStep now k r s).1.members k' = get s.members k' := by
  by_cases hc : now - r.lastOwnerHeartbeat > clearStateTimeout ∧ r.currentState ≠ none
  · by_cases hd : now - r.lastOwnerHeartbeat > deleteTimeout
    · simp only [cleanupRoomStep, deleteRoom, if_pos hc, if_pos hd]
      exact ⟨by rw [get_del_ne _ _ _ h, get_set_ne _ _ _ _ h],
             by rw [get_del_ne _ _ _ h]⟩
    · simp only [cleanupRoomStep, if_pos hc, if_neg hd]
      exact ⟨by rw [get_set_ne _ _ _ _ h], by simp⟩
  · by_cases hd : now - r.lastOwnerHeartbeat > deleteTimeout
    · simp only [cleanupRoomStep, deleteRoom, if_neg hc, if_pos hd]
      exact ⟨by rw [get_del_ne _ _ _ h], by rw [get_del_ne _ _ _ h]⟩
    · simp only [cleanupRoomStep, if_neg hc, if_neg hd]
      exact ⟨by simp, by simp⟩

theorem cleanupRoomStep_count_ne (now : Nat) (k : String) (r : Room) (s : Store)
    (k' : String) (p : Payload) (h : k ≠ k') :
    countRoomAll (cleanupRoomStep now k r s).2 k' p = 0 := by
  by_cases hc : now - r.lastOwnerHeartbeat > clearStateTimeout ∧ r.currentState ≠ none
  · by_cases hd : now - r.lastOwnerHeartbeat > deleteTimeout
    · simp only [cleanupRoomStep, deleteRoom, if_pos hc, if_pos hd]
      simp [countRoomAll, h]
    · simp only [cleanupRoomStep, if_pos hc, if_neg hd]
      simp [countRoomAll, h]
  · by_cases hd : now - r.lastOwnerHeartbeat > deleteTimeout
    · simp only [cleanupRoomStep, deleteRoom, if_neg hc, if_pos hd]
      simp [countRoomAll, h]
    · simp only [cleanupRoomStep, if_neg hc, if_neg hd]
      simp [countRoomAll]

theorem cleanupRoomStep_wf (now : Nat) (k : String) (r : Room) (s : Store)
    (hwf : storeWF s) : storeWF (cleanupRoomStep now k r s).1 := by
  obtain ⟨hnr, hnm, hns⟩ := hwf
  by_cases hc : now - r.lastOwnerHeartbeat > clearStateTimeout ∧ r.currentState ≠ none
  · by_cases hd : now - r.lastOwnerHeartbeat > deleteTimeout
    · simp only [cleanupRoomStep, deleteRoom, if_pos hc, if_pos hd]
      exact ⟨keysNodup_del _ _ (keysNodup_set _ _ _ hnr), keysNodup_del _ _ hnm, hns⟩
    · simp only [cleanupRoomStep, if_pos hc, if_neg hd]
      exact ⟨keysNodup_set _ _ _ hnr, hnm, hns⟩
  · by_cases hd : now - r.lastOwnerHeartbeat > deleteTimeout
    · simp only [cleanupRoomStep, deleteRoom, if_neg hc, if_pos hd]
      exact ⟨keysNodup_del _ _ hnr, keysNodup_del _ _ hnm, hns⟩
    · simp only [cleanupRoomStep, if_neg hc, if_neg hd]
      exact ⟨hnr, hnm, hns⟩

theorem cleanupRoomStep_self (now : Nat) (k : String) (r : Room) (s : Store)
    (hwf : storeWF s) :
    ((now - r.lastOwnerHeartbeat > deleteTimeout) →
      get (cleanupRoomStep now k r s).1.rooms k = none ∧
      get (cleanupRoomStep now k r s).1.members k = none) ∧
    ((now - r.lastOwnerHeartbeat > clearStateTimeout ∧ r.currentState ≠ none ∧
        ¬ now - r.lastOwnerHeartbeat > deleteTimeout) →
      get (cleanupRoomStep now k r s).1.rooms k = some { r with currentState := none }) ∧
    (countRoomAll (cleanupRoomStep now k r s).2 k Payload.stateCleared =
      (if now - r.lastOwnerHeartbeat > clearStateTimeout ∧ r.currentState ≠ none
       then 1 else 0)) ∧
    (countRoomAll (cleanupRoomStep now k r s).2 k Payload.roomDeleted =
      (if now - r.lastOwnerHeartbeat > deleteTimeout then 1 else 0)) := by
  obtain ⟨hnr, hnm, hns⟩ := hwf
  by_cases hc : now - r.lastOwnerHeartbeat > clearStateTimeout ∧ r.currentState ≠ none
  · by_cases hd : now - r.lastOwnerHeartbeat > deleteTimeout
    · simp only [cleanupRoomStep, deleteRoom, if_pos hc, if_pos hd]
      refine ⟨fun _ => ⟨?_, ?_⟩, fun h2 => absurd hd h2.2.2, ?_, ?_⟩
      · exact get_del_self _ _ (keysNodup_set _ _ _ hnr)
      · exact get_del_self _ _ hnm
      · simp [countRoomAll]
      · simp [countRoomAll]
    · simp only [cleanupRoomStep, if_pos hc, if_neg hd]
      refine ⟨fun h2 => absurd h2 hd, fun _ => get_set_self _ _ _, ?_, ?_⟩
      · simp [countRoomAll]
      · simp [countRoomAll]
  · by_cases hd : now - r.lastOwnerHeartbeat > deleteTimeout
    · simp only [cleanupRoomStep, deleteRoom, if_neg hc, if_pos hd]
      refine ⟨fun _ => ⟨?_, ?_⟩, fun h2 => absurd ⟨h2.1, h2.2.1⟩ hc, ?_, ?_⟩
      · exact get_del_self _ _ hnr
      · exact get_del_self _ _ hnm
      · simp [countRoomAll]
      · simp [countRoomAll]
    · simp only [cleanupRoomStep, if_neg hc, if_neg hd]
      refine ⟨fun h2 => absurd h2 hd, fun h2 => absurd ⟨h2.1, h2.2.1⟩ hc, ?_, ?_⟩
      · simp [countRoomAll]
      · simp [countRoomAll]

theorem cleanupFold_untouched (now : Nat) (entries : List (String × Room)) (s : Store)
    (acc : List Emit) (k : String) (h : k ∉ entries.map Prod.fst) :
    get (cleanupFold now entries s acc).1.rooms k = get s.rooms k ∧
    get (cleanupFold now entries s acc).1.members k = get s.members k ∧
    (∀ p, countRoomAll (cleanupFold now entries s acc).2 k p = countRoomAll acc k p) := by
  induction entries generalizing s acc with
  | nil => simp [cleanupFold]
  | cons hd rest ih =>
    obtain ⟨k2, r2⟩ := hd
    simp only [List.map_cons, List.mem_cons] at h
    push_neg at h
    have hne : k2 ≠ k := fun hh => h.1 hh.symm
    simp only [cleanupFold]
    obtain ⟨h1, h2, h3⟩ :=
      ih (cleanupRoomStep now k2 r2 s).1 (acc ++ (cleanupRoomStep now k2 r2 s).2) h.2
    obtain ⟨g1, g2⟩ := cleanupRoomStep_rooms_ne now k2 r2 s k hne
    refine ⟨?_, ?_, ?_⟩
    · rw [h1, g1]
    · rw [h2, g2]
    · intro p
      rw [h3 p, countRoomAll_append, cleanupRoomStep_count_ne now k2 r2 s k p hne]
      omega

theorem cleanupFold_spec (now : Nat) (entries : List (String × Room)) (s : Store)
    (acc : List Emit) (k : String) (r : Room)
    (hmem : (k, r) ∈ entries)
    (hnd : (entries.map Prod.fst).Nodup)
    (hwf : storeWF s) :
    ((now - r.lastOwnerHeartbeat > deleteTimeout) →
      get (cleanupFold now entries s acc).1.rooms k = none ∧
      get (cleanupFold now entries s acc).1.members k = none) ∧
    ((now - r.lastOwnerHeartbeat > clearStateTimeout ∧ r.currentState ≠ none ∧
        ¬ now - r.lastOwnerHeartbeat > deleteTimeout) →
      get (cleanupFold now entries s acc).1.rooms k =
        some { r with currentState := none }) ∧
    (countRoomAll (cleanupFold now entries s acc).2 k Payload.stateCleared =
      countRoomAll acc k Payload.stateCleared +
      (if now - r.lastOwnerHeartbeat > clearStateTimeout ∧ r.currentState ≠ none
       then 1 else 0)) ∧
    (countRoomAll (cleanupFold now entries s acc).2 k Payload.roomDeleted =
      countRoomAll acc k Payload.roomDeleted +
      (if now - r.lastOwnerHeartbeat > deleteTimeout then 1 else 0)) := by
  induction entries generalizing s acc with
  | nil => cases hmem
  | cons hd rest ih =>
    obtain ⟨k2, r2⟩ := hd
    simp only [List.map_cons, List.nodup_cons] at hnd
    rcases List.mem_cons.mp hmem with heq | hmem2
    · obtain ⟨rfl, rfl⟩ := Prod.mk.inj heq
      have hrest : k ∉ rest.map Prod.fst := hnd.1
      simp only [cleanupFold]
      obtain ⟨h1, h2, h3⟩ := cleanupFold_untouched now rest
        (cleanupRoomStep now k r s).1 (acc ++ (cleanupRoomStep now k r s).2) k hrest
      obtain ⟨g1, g2, g3, g4⟩ := cleanupRoomStep_self now k r s hwf
      refine ⟨fun hd2 => ?_, fun hc2 => ?_, ?_, ?_⟩
      · rw [h1, h2]
        exact g1 hd2
      · rw [h1]
        exact g2 hc2
      · rw [h3 _, countRoomAll_append, g3]
      · rw [h3 _, countRoomAll_append, g4]
    · have hk : k2 ≠ k := by
        intro hh
        subst hh
        exact hnd.1 (List.mem_map.mpr ⟨(k2, r), hmem2, rfl⟩)
      simp only [cleanupFold]
      have hwf1 := cleanupRoomStep_wf now k2 r2 s hwf
      obtain ⟨c1, c2, c3, c4⟩ :=
        ih (cleanupRoomStep now k2 r2 s).1 (acc ++ (cleanupRoomStep now k2 r2 s).2)
          hmem2 hnd.2 hwf1
      refine ⟨c1, c2, ?_, ?_⟩
      · rw [c3, countRoomAll_append, cleanupRoomStep_count_ne now k2 r2 s k _ hk]
        omega
      · rw [c4, countRoomAll_append, cleanupRoomStep_count_ne now k2 r2 s k _ hk]
        omega

/-- C2: on a reconciliation tick, for any room present in the store: if the
time since its last owner heartbeat exceeds 30 s and its playback state is
non-null, exactly one `state:cleared` broadcast is emitted for it and (when
the 5-minute deletion threshold is not also crossed) the stored room now has a
null playback state; if the state is already null, no `state:cleared` is
emitted at all, so the broadcast happens exactly once per threshold crossing
and is not repeated on later ticks; and if the elapsed time exceeds 5 minutes
the `Room` and its membership map are dropped — regardless of how many
non-owner members are still in the membership map — with exactly one
`room:deleted` broadcast. -/
theorem cleanup_tick_thresholds (s : Store) (now : Nat) (roomId : String) (room : Room)
    (hwf : storeWF s)
    (hroom : get s.rooms roomId = some room) :
    ((now - room.lastOwnerHeartbeat > clearStateTimeout ∧ room.currentState ≠ none) →
      countRoomAll (cleanupTick now s).2 roomId Payload.stateCleared = 1) ∧
    ((now - room.lastOwnerHeartbeat > clearStateTimeout ∧ room.currentState ≠ none ∧
        ¬ now - room.lastOwnerHeartbeat > deleteTimeout) →
      get (cleanupTick now s).1.rooms roomId = some { room with currentState := none }) ∧
    (room.currentState = none →
      countRoomAll (cleanupTick now s).2 roomId Payload.stateCleared = 0) ∧
    ((now - room.lastOwnerHeartbeat > deleteTimeout) →
      get (cleanupTick now s).1.rooms roomId = none ∧
      get (cleanupTick now s).1.members roomId = none ∧
      countRoomAll (cleanupTick now s).2 roomId Payload.roomDeleted = 1) := by
  have hmem := mem_of_get_some s.rooms roomId room hroom
  have hnd : (List.map Prod.fst s.rooms).Nodup := hwf.1
  obtain ⟨c1, c2, c3, c4⟩ := cleanupFold_spec now s.rooms s [] roomId room hmem hnd hwf
  refine ⟨fun hc => ?_, fun hc => c2 hc, fun hn => ?_, fun hd => ⟨(c1 hd).1, (c1 hd).2, ?_⟩⟩
  · rw [show (cleanupTick now s).2 = (cleanupFold now s.rooms s []).2 from rfl, c3]
    simp [countRoomAll, hc]
  · rw [show (cleanupTick now s).2 = (cleanupFold now s.rooms s []).2 from rfl, c3]
    simp [countRoomAll, hn]
  · rw [show (cleanupTick now s).2 = (cleanupFold now s.rooms s []).2 from rfl, c4]
    simp [countRoomAll, hd]

/-- C2 witness: at t = 40000 ms the fixture room (owner heartbeat at t = 10)
is cleared exactly once; at t = 400000 ms it is deleted, with both members
still present in its membership map. -/
theorem cleanup_tick_thresholds_witness :
    countRoomAll (cleanupTick 40000 staleStore).2 "R1" Payload.stateCleared = 1 ∧
    get (cleanupTick 400000 staleStore).1.rooms "R1" = none ∧
    countRoomAll (cleanupTick 400000 staleStore).2 "R1" Payload.roomDeleted = 1 :=
  ⟨(cleanup_tick_thresholds staleStore 40000 "R1" staleRoom
      (by decide) (by decide)).1 (by decide),
   ((cleanup_tick_thresholds staleStore 400000 "R1" staleRoom
      (by decide) (by decide)).2.2.2 (by decide)).1,
   ((cleanup_tick_thresholds staleStore 400000 "R1" staleRoom
      (by decide) (by decide)).2.2.2 (by decide)).2.2⟩

end WatchRoom
